import Mathlib

/-!
Verification of the deadstream-react core: the recording-quality scoring
engine (src/services/scoringEngine.ts), the recording selector and
source-type inference (src/services/recordingSelector.ts,
src/services/archiveApi.ts), the preferences service
(src/services/preferences.ts, src/types/preferences.ts), the archive API
rate limiter (src/services/archiveApi.ts) and the HTML5 audio player
(src/services/audioPlayer.ts).

JavaScript strings are modelled as `List Char` (lower-casing is ASCII,
which covers every marker string the code matches on).  JavaScript
numbers are modelled as real numbers for the scoring engine (which uses
`Math.log10`) and as rationals for the audio player (whose arithmetic is
order/min/max only).  A JavaScript `string | null` field is an
`Option (List Char)`; the `!s` falsiness test is `none` or the empty
string.  `NaN` durations of the audio element are modelled by `none`.
-/

namespace DeadStream

/-! ## String helpers (JS `toLowerCase`, `trim`, `includes`) -/

/-- ASCII lower-casing, modelling `String.prototype.toLowerCase` on the
ASCII marker strings used by the code. -/
def strLower (s : List Char) : List Char := s.map Char.toLower

/-- Model of `String.prototype.trim`: strip whitespace from both ends. -/
def strTrim (s : List Char) : List Char :=
  ((s.dropWhile Char.isWhitespace).reverse.dropWhile Char.isWhitespace).reverse

/-- Model of `hay.includes(needle)`: `needle` occurs as a contiguous substring. -/
def strContains (hay needle : List Char) : Bool :=
  (List.range (hay.length + 1)).any fun i => needle.isPrefixOf (hay.drop i)

/-- Numeric value of a digit string (JS `parseInt(_, 10)` on an all-digit
capture group). -/
def digitsVal (ds : List Char) : ℕ :=
  ds.foldl (fun a c => 10 * a + (c.toNat - 48)) 0

/-! ## Scoring engine: `src/services/scoringEngine.ts` -/

/-- Model of `KNOWN_TAPERS` from scoringEngine.ts (a `Set` of lower-case names;
membership is tested by substring search, so the list order is
irrelevant). -/
def KNOWN_TAPERS : List (List Char) :=
  List.map String.toList
    ["betty boards", "betty board", "charlie miller", "miller",
     "dick latvala", "latvala", "dan healy", "healy", "vault", "bear",
     "owsley", "ultramatrix", "seamons", "bertrando", "clarke", "tobin",
     "scotton", "wagner", "miner"]

/-- Model of `scoreSourceType(sourceType: string | null): number`.  The JS falsy
test `!sourceType` is `none` or the empty string. -/
def scoreSourceType (sourceType : Option (List Char)) : ℕ :=
  match sourceType with
  | none => 0
  | some s =>
    if s.isEmpty then 0
    else
      let normalized := strTrim (strLower s)
      if strContains normalized ("sbd".toList) ||
          strContains normalized ("soundboard".toList) then 100
      else if strContains normalized ("matrix".toList) then 70
      else if strContains normalized ("aud".toList) ||
          strContains normalized ("audience".toList) then 40
      else 50

/-- One attempt of the regex `/(\d+)\s*k/` anchored at the head of `l`:
a maximal digit run, optional whitespace, then the letter `k`. -/
def bitrateAt (l : List Char) : Option ℕ :=
  let ds := l.takeWhile Char.isDigit
  if ds.isEmpty then none
  else
    match (l.drop ds.length).dropWhile Char.isWhitespace with
    | 'k' :: _ => some (digitsVal ds)
    | _ => none

/-- Leftmost match of `/(\d+)\s*k/` (JS `String.prototype.match`). -/
def findBitrate : List Char → Option ℕ
  | [] => none
  | c :: rest =>
    match bitrateAt (c :: rest) with
    | some n => some n
    | none => findBitrate rest

/-- Model of `scoreFormat(format: string): number`. -/
def scoreFormat (format : List Char) : ℕ :=
  if format.isEmpty then 0
  else
    let normalized := strTrim (strLower format)
    if strContains normalized ("flac".toList) ||
        strContains normalized ("shn".toList) ||
        strContains normalized ("ape".toList) then 100
    else if strContains normalized ("vbr".toList) then 85
    else
      match findBitrate normalized with
      | some bitrate =>
        if 320 ≤ bitrate then 90
        else if 256 ≤ bitrate then 75
        else if 192 ≤ bitrate then 60
        else if 128 ≤ bitrate then 45
        else 30
      | none =>
        if strContains normalized ("mp3".toList) then 70
        else if strContains normalized ("ogg".toList) ||
            strContains normalized ("vorbis".toList) then 75
        else 50

/-- One attempt of the first alternative `m(\d+)` of the lineage regex,
anchored at the head of `l`. -/
def genAltM (l : List Char) : Option ℕ :=
  match l with
  | 'm' :: rest =>
    let ds := rest.takeWhile Char.isDigit
    if ds.isEmpty then none else some (digitsVal ds)
  | _ => none

/-- One attempt of the second alternative `(\d+)(?:st|nd|rd|th)\s*gen`,
anchored at the head of `l`. -/
def genAltOrdinal (l : List Char) : Option ℕ :=
  let ds := l.takeWhile Char.isDigit
  if ds.isEmpty then none
  else
    let suffix :=
      match l.drop ds.length with
      | 's' :: 't' :: r => some r
      | 'n' :: 'd' :: r => some r
      | 'r' :: 'd' :: r => some r
      | 't' :: 'h' :: r => some r
      | _ => none
    match suffix with
    | none => none
    | some r =>
      if ("gen".toList).isPrefixOf (r.dropWhile Char.isWhitespace) then
        some (digitsVal ds)
      else none

/-- Leftmost match of `/m(\d+)|(\d+)(?:st|nd|rd|th)\s*gen/`, alternatives
tried in order at each start position (JS regex search order). -/
def genSearch : List Char → Option ℕ
  | [] => none
  | c :: rest =>
    match genAltM (c :: rest) with
    | some n => some n
    | none =>
      match genAltOrdinal (c :: rest) with
      | some n => some n
      | none => genSearch rest

/-- The generation-number branch of `scoreLineage` (the if-chain on the
parsed number; `Math.max(30, 90 - genNumber * 15)` is integer
arithmetic). -/
def genScore (g : ℕ) : ℕ :=
  if g = 1 then 90
  else if g = 2 then 75
  else if g = 3 then 60
  else if g = 4 then 45
  else (max 30 (90 - (g : ℤ) * 15)).toNat

/-- Model of `scoreLineage(lineage: string | null): number`. -/
def scoreLineage (lineage : Option (List Char)) : ℕ :=
  match lineage with
  | none => 50
  | some s =>
    if s.isEmpty then 50
    else
      let normalized := strTrim (strLower s)
      if strContains normalized ("master".toList) ||
          strContains normalized ("original".toList) then 100
      else
        match genSearch normalized with
        | some g => genScore g
        | none => 60

/-- Model of `scoreTaper(taper: string | null): number`. -/
def scoreTaper (taper : Option (List Char)) : ℕ :=
  match taper with
  | none => 50
  | some s =>
    if s.isEmpty then 50
    else
      let normalized := strTrim (strLower s)
      if KNOWN_TAPERS.any (fun kt => strContains normalized kt) then 100
      else 50

/-- Model of `scoreCommunityRating(avgRating, numReviews)`: rating normalised to
0..100, damped by a log-scale confidence multiplier. -/
noncomputable def scoreCommunityRating (avgRating numReviews : ℝ) : ℝ :=
  let ratingScore := avgRating / 5 * 100
  let confidenceMultiplier := min 1 (Real.logb 10 (numReviews + 1) / 2)
  ratingScore * (0.5 + 0.5 * confidenceMultiplier)

/-- Model of `Math.round(x * 100) / 100` (JS `Math.round` rounds half toward
positive infinity, i.e. `⌊x + 1/2⌋`). -/
noncomputable def jsRound2 (x : ℝ) : ℝ := (⌊x * 100 + 1 / 2⌋ : ℝ) / 100

/-- Model of `RecordingQuality` from src/types/metadata.ts. -/
structure RecordingQuality where
  identifier : List Char
  sourceType : Option (List Char)
  format : List Char
  avgRating : ℝ
  numReviews : ℝ
  lineage : Option (List Char)
  taper : Option (List Char)
  transferer : Option (List Char)

/-- Model of `ScoringWeights` from src/types/preferences.ts. -/
structure ScoringWeights where
  sourceType : ℝ
  format : ℝ
  communityRating : ℝ
  lineage : ℝ
  taper : ℝ

/-- Sum of the five weight components (the sum computed by
`validateScoringWeights`). -/
noncomputable def weightsSum (w : ScoringWeights) : ℝ :=
  w.sourceType + w.format + w.communityRating + w.lineage + w.taper

/-- The `balanced` preset of `SCORING_PRESETS`. -/
noncomputable def balancedWeights : ScoringWeights :=
  { sourceType := 0.35, format := 0.25, communityRating := 0.20,
    lineage := 0.10, taper := 0.10 }

/-- Model of `scoreRecording(recording, weights)`: weighted sum of the five
component scores, rounded to 2 decimal places. -/
noncomputable def scoreRecording (recording : RecordingQuality)
    (weights : ScoringWeights) : ℝ :=
  let sourceScore := (scoreSourceType recording.sourceType : ℝ) * weights.sourceType
  let formatScore := (scoreFormat recording.format : ℝ) * weights.format
  let ratingScore :=
    scoreCommunityRating recording.avgRating recording.numReviews *
      weights.communityRating
  let lineageScore := (scoreLineage recording.lineage : ℝ) * weights.lineage
  let taperScore := (scoreTaper recording.taper : ℝ) * weights.taper
  jsRound2 (sourceScore + formatScore + ratingScore + lineageScore + taperScore)

/-- A recording paired with its composite score (the object spread
`{...recording, score}` built by `scoreAndSortRecordings`). -/
structure ScoredRecording where
  recording : RecordingQuality
  score : ℝ

/-- Stable insertion into a list sorted descending by `key`: the new
element goes after every element with a strictly larger key and also
after none of the elements with an equal key that were already placed. -/
noncomputable def insertByScoreDesc {α : Type} (key : α → ℝ) (x : α) :
    List α → List α
  | [] => [x]
  | y :: ys =>
    if key x < key y then y :: insertByScoreDesc key x ys else x :: y :: ys

/-- Stable descending sort by `key`.  `Array.prototype.sort` with the
comparator `(a, b) => b.score - a.score` is required (ES2019) to be a
stable sort consistent with that comparator; stable insertion sort
computes the same, unique, stable descending ordering. -/
noncomputable def sortByScoreDesc {α : Type} (key : α → ℝ) :
    List α → List α
  | [] => []
  | x :: xs => insertByScoreDesc key x (sortByScoreDesc key xs)

/-- Model of `scoreAndSortRecordings(recordings, weights)`. -/
noncomputable def scoreAndSortRecordings (recordings : List RecordingQuality)
    (weights : ScoringWeights) : List ScoredRecording :=
  sortByScoreDesc (fun r => r.score)
    (recordings.map fun r => { recording := r, score := scoreRecording r weights })

/-- Model of `selectBestRecording(recordings, weights)`: `null` on an empty list,
otherwise the head of the sorted list. -/
noncomputable def selectBestRecording (recordings : List RecordingQuality)
    (weights : ScoringWeights) : Option ScoredRecording :=
  if recordings.isEmpty then none
  else (scoreAndSortRecordings recordings weights).head?

/-! ## Source-type inference

Two distinct inference routines exist in the repository: `inferSourceType`
in src/services/archiveApi.ts, which searches the combined
source/title/identifier text, and the inline inference inside
`extractRecordingQuality` in src/services/recordingSelector.ts, which
checks the source field and then the title field. -/

inductive SourceType where
  | sbd
  | aud
  | matrix
  | unknown
deriving DecidableEq, Repr

/-- The fields of `ArchiveMetadata` read by the inference routines. -/
structure ArchiveMeta where
  identifier : List Char
  title : Option (List Char)
  source : Option (List Char)

/-- Model of `(field || '').toLowerCase()` on an optional string field. -/
def optLower (s : Option (List Char)) : List Char := strLower (s.getD [])

/-- The combined text `` `${source} ${title} ${identifier}` `` built by
`inferSourceType` (all three fields lower-cased). -/
def combinedOf (m : ArchiveMeta) : List Char :=
  optLower m.source ++ ' ' :: (optLower m.title ++ ' ' :: strLower m.identifier)

/-- Soundboard markers tested by `inferSourceType`. -/
def hasSbdMarker (l : List Char) : Bool :=
  strContains l ("sbd".toList) || strContains l ("soundboard".toList) ||
    strContains l ("sound board".toList)

/-- Matrix markers tested by `inferSourceType`. -/
def hasMatrixMarker (l : List Char) : Bool :=
  strContains l ("matrix".toList) || strContains l ("mtx".toList)

/-- Audience markers tested by `inferSourceType`. -/
def hasAudMarker (l : List Char) : Bool :=
  strContains l ("aud".toList) || strContains l ("audience".toList) ||
    strContains l ("fob".toList) || strContains l ("dfc".toList)

/-- Model of `inferSourceType(metadata)` from src/services/archiveApi.ts. -/
def inferSourceType (metadata : ArchiveMeta) : SourceType :=
  let combined := combinedOf metadata
  if hasSbdMarker combined then .sbd
  else if hasMatrixMarker combined then .matrix
  else if hasAudMarker combined then .aud
  else .unknown

/-- The source-type inference inlined in `extractRecordingQuality`
(src/services/recordingSelector.ts, metadata branch): the source field is
checked for all three marker groups before the title field is consulted;
the identifier is never inspected and the markers are only
sbd/soundboard, matrix, aud/audience. -/
def extractSourceType (source? title? : Option (List Char)) : SourceType :=
  let source := optLower source?
  let title := optLower title?
  if strContains source ("sbd".toList) ||
      strContains source ("soundboard".toList) then .sbd
  else if strContains source ("matrix".toList) then .matrix
  else if strContains source ("aud".toList) ||
      strContains source ("audience".toList) then .aud
  else if strContains title ("sbd".toList) ||
      strContains title ("soundboard".toList) then .sbd
  else if strContains title ("matrix".toList) then .matrix
  else if strContains title ("aud".toList) ||
      strContains title ("audience".toList) then .aud
  else .unknown

/-- Modelled from the spec: the claimed source-type inference rule —
"inspect combined lowercase text of source/title/identifier fields for
marker substrings (sbd/soundboard → soundboard; matrix/mtx → matrix;
aud/audience/fob/dfc → audience); first match wins in checked order
soundboard→matrix→audience; no match → unknown".  It differs from the
code's `inferSourceType` only in lacking the extra "sound board" marker,
and from the selector's `extractSourceType` in combining the fields. -/
def specInferSourceType (metadata : ArchiveMeta) : SourceType :=
  let combined := combinedOf metadata
  if strContains combined ("sbd".toList) ||
      strContains combined ("soundboard".toList) then .sbd
  else if hasMatrixMarker combined then .matrix
  else if hasAudMarker combined then .aud
  else .unknown

/-! ## Preferences: `src/services/preferences.ts`, `src/types/preferences.ts` -/

inductive PresetName where
  | balanced
  | audiophile
  | crowd_favorite
  | custom
deriving DecidableEq, Repr

inductive Theme where
  | light
  | dark
deriving DecidableEq, Repr

inductive FontSize where
  | normal
  | large
deriving DecidableEq, Repr

structure ScoringPrefs where
  activePreset : PresetName
  customWeights : Option ScoringWeights

structure PlaybackPrefs where
  volume : ℚ
  autoPlay : Bool
  crossfade : ℚ

structure DisplayPrefs where
  theme : Theme
  fontSize : FontSize

/-- Model of `UserPreferences` from src/types/preferences.ts. -/
structure UserPreferences where
  scoring : ScoringPrefs
  playback : PlaybackPrefs
  display : DisplayPrefs

/-- Model of `validateScoringWeights(weights)`: the five components must sum to
1.0 within the strict tolerance `Math.abs(sum - 1.0) < 0.001`. -/
noncomputable def validateScoringWeights (weights : ScoringWeights) : Prop :=
  |weightsSum weights - 1| < 0.001

/-- The record returned by `updateCustomWeights`. -/
structure UpdateWeightsResult where
  success : Bool
  preferences : UserPreferences
  error : Option (List Char)

/-- The persistence collaborator (`localStorage` behind
`savePreferences`), modelled as the currently stored preferences. -/
def PrefStore := Option UserPreferences

/-- Model of `updateCustomWeights(preferences, weights)` together with its
persistence side effect: on validation failure it returns failure with
the input preferences and does not touch the store; on success it builds
the updated preferences, saves them, and returns them. -/
noncomputable def updateCustomWeights (store : PrefStore)
    (preferences : UserPreferences) (weights : ScoringWeights) :
    PrefStore × UpdateWeightsResult :=
  letI : Decidable (validateScoringWeights weights) := Classical.propDecidable _
  if validateScoringWeights weights then
    let updated : UserPreferences :=
      { preferences with
        scoring := { activePreset := .custom, customWeights := some weights } }
    (some updated,
      { success := true, preferences := updated, error := none })
  else
    (store,
      { success := false, preferences := preferences,
        error := some ("Weights must sum to 1.0".toList) })

/-! ## Rate limiter: `RateLimiter.throttle` in src/services/archiveApi.ts

`throttle` reads `lastRequest`, computes
`wait = max(0, MIN_REQUEST_INTERVAL - (now - lastRequest))`, sleeps for
`wait` if positive, then sets `lastRequest` and invokes the request
function.  The JavaScript event loop runs the read/compute prefix of
every concurrently entered `throttle` call synchronously: a caller with
`wait = 0` fires (and updates `lastRequest`) immediately within the tick,
while a caller with `wait > 0` suspends and only updates `lastRequest`
at its fire time — after the tick — so later entries in the same tick
still read the old value. -/

def MIN_REQUEST_INTERVAL : ℤ := 1000

/-- The wait computed by one `throttle` entry. -/
def throttleWait (lastRequest now : ℤ) : ℤ :=
  max 0 (MIN_REQUEST_INTERVAL - (now - lastRequest))

/-- Fire times of `n` `throttle` calls that all enter in the same
event-loop tick at time `now` (as `fetchRecordingQualities` produces by
mapping `getMetadata` over the candidate list): each entry reads the
`lastRequest` current at that point of the tick. -/
def sameTickFireTimes (lastRequest now : ℤ) : ℕ → List ℤ
  | 0 => []
  | n + 1 =>
    let w := throttleWait lastRequest now
    if w = 0 then now :: sameTickFireTimes now now n
    else (now + w) :: sameTickFireTimes lastRequest now n

/-- Fire time of a single, sequential `throttle` call entered at `now`
against a recorded `lastRequest`. -/
def seqFireTime (lastRequest now : ℤ) : ℤ :=
  now + throttleWait lastRequest now

/-! ## Audio player: `src/services/audioPlayer.ts`

The `AudioPlayer` class wraps an HTML5 audio element.  The element is
modelled explicitly (`AudioElem`); its deterministic event deliveries
(`loadstart` on `load()`, `pause` on `pause()`, `playing` when a `play()`
call succeeds) invoke the handlers registered in `setupEventListeners`.
Each operation returns the new player together with the list of
notifications (`onStateChange`/`onTrackChange`/`onProgress`/`onError`)
emitted during it. -/

inductive PlayerState where
  | idle
  | loading
  | playing
  | paused
  | error
deriving DecidableEq, Repr

/-- Model of `AudioTrack` from src/types/metadata.ts. -/
structure AudioTrack where
  url : List Char
  filename : List Char
  title : List Char
  duration : ℚ
  format : List Char
  size : ℤ
  index : ℕ
deriving DecidableEq, Repr

/-- A notification delivered through `AudioPlayerConfig`. -/
inductive PlayerEvent where
  | stateChange (state : PlayerState)
  | trackChange (track : Option AudioTrack)
  | progressNote (current : ℚ) (duration : Option ℚ)
  | errorNote (message : List Char)
deriving DecidableEq, Repr

/-- The HTML5 audio element state read and written by the player.
`duration = none` models `NaN` (metadata not yet known). -/
structure AudioElem where
  src : Option (List Char)
  currentTime : ℚ
  duration : Option ℚ
  paused : Bool
  volume : ℚ
deriving DecidableEq, Repr

/-- The `AudioPlayer` instance state. -/
structure Player where
  audio : AudioElem
  playlist : List AudioTrack
  currentIndex : ℕ
  state : PlayerState
deriving DecidableEq, Repr

/-- Result of one operation: new player state plus emitted notifications. -/
abbrev PM := Player × List PlayerEvent

/-- Run an effect-free field update (never touches `state`). -/
def opPure (f : Player → Player) : Player → PM := fun p => (f p, [])

/-- Emit one notification without changing the player. -/
def opEmit (e : PlayerEvent) : Player → PM := fun p => (p, [e])

/-- Run two operations in sequence, concatenating their notifications. -/
def opSeq (f g : Player → PM) : Player → PM := fun p =>
  let r := f p
  let r' := g r.1
  (r'.1, r.2 ++ r'.2)

/-- Model of `setState(state)`: update and notify only when the state actually
changes. -/
def setState (s : PlayerState) : Player → PM := fun p =>
  if p.state = s then (p, [])
  else ({ p with state := s }, [PlayerEvent.stateChange s])

/-- Model of `loadstart` listener: enter `loading`. -/
def handleLoadstart : Player → PM := setState .loading

/-- Model of `canplay` listener: `loading → paused`. -/
def handleCanplay : Player → PM := fun p =>
  if p.state = .loading then setState .paused p else (p, [])

/-- Model of `playing` listener: enter `playing`. -/
def handlePlaying : Player → PM := setState .playing

/-- Model of `pause` listener: `playing → paused`. -/
def handlePauseEvt : Player → PM := fun p =>
  if p.state = .playing then setState .paused p else (p, [])

/-- Model of `error` listener: enter `error` and notify. -/
def handleError (message : List Char) : Player → PM :=
  opSeq (setState .error) (opEmit (.errorNote message))

/-- Model of `audio.load()`: resets the element's position and (not yet known)
duration and delivers `loadstart`. -/
def elemLoad : Player → PM :=
  opSeq
    (opPure fun p =>
      { p with audio := { p.audio with currentTime := 0, duration := none } })
    handleLoadstart

/-- Model of `audio.pause()`: if not already paused, set the paused flag and
deliver the `pause` event. -/
def elemPause : Player → PM := fun p =>
  if p.audio.paused then (p, [])
  else
    opSeq
      (opPure fun q => { q with audio := { q.audio with paused := true } })
      handlePauseEvt p

/-- Successful resolution of `audio.play()`: the element starts and
delivers the `playing` event. -/
def elemPlayOk : Player → PM :=
  opSeq
    (opPure fun p => { p with audio := { p.audio with paused := false } })
    handlePlaying

/-- Model of `loadCurrentTrack()`: assign the source, call `load()`, and notify
the track change; with no track at the current index, only notify
`null`. -/
def loadCurrentTrack : Player → PM := fun p =>
  match p.playlist[p.currentIndex]? with
  | some track =>
    opSeq
      (opPure fun q => { q with audio := { q.audio with src := some track.url } })
      (opSeq elemLoad (opEmit (.trackChange (some track)))) p
  | none => opEmit (.trackChange none) p

/-- Model of `loadPlaylist(tracks, startIndex)`: store the playlist, clamp the
start index with `Math.max(0, Math.min(startIndex, tracks.length - 1))`,
and load the current track. -/
def loadPlaylist (tracks : List AudioTrack) (startIndex : ℤ) : Player → PM :=
  fun p =>
    loadCurrentTrack
      { p with
        playlist := tracks,
        currentIndex := (max 0 (min startIndex ((tracks.length : ℤ) - 1))).toNat }

/-- Model of `next()`: advance and load (the accompanying `play()` resolves
asynchronously, see `elemPlayOk`), or pause and go idle at the end of the
playlist. -/
def next : Player → PM := fun p =>
  if p.currentIndex < p.playlist.length - 1 then
    loadCurrentTrack { p with currentIndex := p.currentIndex + 1 }
  else
    opSeq elemPause (setState .idle) p

/-- Model of `previous()`: restart the current track when more than 3 seconds in,
otherwise move back one track (or restart the first track). -/
def previous : Player → PM := fun p =>
  if 3 < p.audio.currentTime then
    opPure (fun q => { q with audio := { q.audio with currentTime := 0 } }) p
  else if 0 < p.currentIndex then
    loadCurrentTrack { p with currentIndex := p.currentIndex - 1 }
  else
    opPure (fun q => { q with audio := { q.audio with currentTime := 0 } }) p

/-- Model of `seekTo(time)`: guarded by the JS truthiness of `audio.duration`
(`NaN` — modelled by `none` — and `0` are falsy, so nothing happens);
otherwise clamp into `[0, duration]`. -/
def seekTo (time : ℚ) : Player → PM := fun p =>
  match p.audio.duration with
  | some d =>
    if d = 0 then (p, [])
    else
      opPure
        (fun q => { q with audio := { q.audio with currentTime := max 0 (min time d) } }) p
  | none => (p, [])

/-- Model of `setVolume(volume)`: clamp into `[0, 1]`. -/
def setVolume (volume : ℚ) : Player → PM :=
  opPure fun p => { p with audio := { p.audio with volume := max 0 (min 1 volume) } }

/-- Model of `timeupdate` listener: report progress with the raw duration. -/
def handleTimeupdate : Player → PM := fun p =>
  (p, [.progressNote p.audio.currentTime p.audio.duration])

/-- Model of `ended` listener: auto-advance. -/
def handleEnded : Player → PM := next

/-- Model of `destroy()`: pause, clear the source and playlist, reset the index,
and force `idle`. -/
def destroy : Player → PM :=
  opSeq elemPause
    (opSeq
      (opPure fun p =>
        { p with
          audio := { p.audio with src := none },
          playlist := [], currentIndex := 0 })
      (setState .idle))

/-- Model of `getCurrentTrack()`: `playlist[currentIndex] || null`. -/
def getCurrentTrack (p : Player) : Option AudioTrack :=
  p.playlist[p.currentIndex]?

/-- Model of `getDuration()`: `audio.duration || 0`. -/
def getDuration (p : Player) : ℚ := p.audio.duration.getD 0

/-- A discrete stimulus delivered to the player: a public method call, a
deterministic audio-element event, or the resolution of a pending
`play()` call. -/
inductive Cmd where
  | load (tracks : List AudioTrack) (startIndex : ℤ)
  | playOk
  | playErr (message : List Char)
  | pauseCmd
  | nextCmd
  | prevCmd
  | seekCmd (time : ℚ)
  | volumeCmd (volume : ℚ)
  | canplayEvt
  | endedEvt
  | timeupdateEvt
  | errorEvt (message : List Char)
  | destroyCmd

/-- Dispatch one stimulus.  A rejected `play()` promise only reaches the
`catch` branch, which notifies `onError` without a state change. -/
def step (p : Player) : Cmd → PM
  | .load tracks startIndex => loadPlaylist tracks startIndex p
  | .playOk => elemPlayOk p
  | .playErr message => opEmit (.errorNote message) p
  | .pauseCmd => elemPause p
  | .nextCmd => next p
  | .prevCmd => previous p
  | .seekCmd time => seekTo time p
  | .volumeCmd volume => setVolume volume p
  | .canplayEvt => handleCanplay p
  | .endedEvt => handleEnded p
  | .timeupdateEvt => handleTimeupdate p
  | .errorEvt message => handleError message p
  | .destroyCmd => destroy p

/-- Run a list of stimuli, concatenating all notifications. -/
def runOp : List Cmd → Player → PM
  | [], p => (p, [])
  | c :: cs, p => opSeq (fun q => step q c) (runOp cs) p

/-- The freshly constructed player: `new Audio()` with no source, state
`idle`, empty playlist. -/
def initPlayer : Player :=
  { audio :=
      { src := none, currentTime := 0, duration := none, paused := true,
        volume := 1 },
    playlist := [], currentIndex := 0, state := .idle }

/-- The states carried by the `onStateChange` notifications of a log. -/
def stateEvs (evs : List PlayerEvent) : List PlayerState :=
  evs.filterMap fun e =>
    match e with
    | .stateChange s => some s
    | _ => none

/-- The final state after a run of `onStateChange` notifications starting
from `s₀`. -/
def endStateOf (s₀ : PlayerState) : List PlayerState → PlayerState
  | [] => s₀
  | s :: rest => endStateOf s rest

/-! ## Substring lemmas -/

theorem isPrefixOf_eq_true {l₁ l₂ : List Char} :
    l₁.isPrefixOf l₂ = true ↔ ∃ t, l₁ ++ t = l₂ := by
  induction l₁ generalizing l₂ with
  | nil => simp [List.isPrefixOf]
  | cons a as ih =>
    cases l₂ with
    | nil => simp [List.isPrefixOf]
    | cons b bs =>
      simp only [List.isPrefixOf, Bool.and_eq_true, beq_iff_eq, ih,
        List.cons_append, List.cons.injEq]
      constructor
      · rintro ⟨rfl, t, rfl⟩
        exact ⟨t, rfl, rfl⟩
      · rintro ⟨t, rfl, rfl⟩
        exact ⟨rfl, t, rfl⟩

/-- Model of `strContains hay needle` holds exactly when `needle` occurs
contiguously inside `hay`. -/
theorem strContains_iff {hay needle : List Char} :
    strContains hay needle = true ↔ ∃ s t, hay = s ++ needle ++ t := by
  unfold strContains
  rw [List.any_eq_true]
  constructor
  · rintro ⟨i, _, hpre⟩
    obtain ⟨t, ht⟩ := isPrefixOf_eq_true.mp hpre
    refine ⟨hay.take i, t, ?_⟩
    calc hay = hay.take i ++ hay.drop i := (List.take_append_drop i hay).symm
      _ = hay.take i ++ (needle ++ t) := by rw [ht]
      _ = hay.take i ++ needle ++ t := by rw [List.append_assoc]
  · rintro ⟨s, t, rfl⟩
    refine ⟨s.length, ?_, ?_⟩
    · simp only [List.mem_range, List.append_assoc, List.length_append]
      omega
    · rw [isPrefixOf_eq_true]
      exact ⟨t, by rw [List.append_assoc, List.drop_left]⟩

/-- A substring of a middle segment is a substring of the whole. -/
theorem strContains_append_mono {field nd : List Char} (a b : List Char)
    (h : strContains field nd = true) :
    strContains (a ++ field ++ b) nd = true := by
  rw [strContains_iff] at h ⊢
  obtain ⟨s, t, rfl⟩ := h
  exact ⟨a ++ s, t ++ b, by simp [List.append_assoc]⟩

theorem hasSbdMarker_append_mono {l : List Char} (a b : List Char)
    (h : hasSbdMarker l = true) : hasSbdMarker (a ++ l ++ b) = true := by
  unfold hasSbdMarker at h ⊢
  simp only [Bool.or_eq_true] at h ⊢
  rcases h with (h | h) | h
  · exact Or.inl (Or.inl (strContains_append_mono a b h))
  · exact Or.inl (Or.inr (strContains_append_mono a b h))
  · exact Or.inr (strContains_append_mono a b h)

/-- Each of the three lower-cased fields sits between fixed pieces of the
combined text. -/
theorem combinedOf_decomp (m : ArchiveMeta) :
    combinedOf m =
      [] ++ optLower m.source ++
        (' ' :: (optLower m.title ++ ' ' :: strLower m.identifier)) ∧
    combinedOf m =
      (optLower m.source ++ [' ']) ++ optLower m.title ++
        (' ' :: strLower m.identifier) ∧
    combinedOf m =
      (optLower m.source ++ ' ' :: (optLower m.title ++ [' '])) ++
        strLower m.identifier ++ [] := by
  refine ⟨by simp [combinedOf], by simp [combinedOf], by simp [combinedOf]⟩

/-! ## Claim C4 -/

/-- Claim C4 counterexample: the recording selector's source-type
inference (`extractRecordingQuality` in recordingSelector.ts) does not
combine the fields.  Here an "sbd" marker appears in the title field, yet
the inference returns `matrix` because the source field is checked for
all of its markers first — contradicting the claim that soundboard
markers win over matrix markers regardless of which field contains
them. -/
theorem C4_counterexample :
    strContains (optLower (some ("Grateful Dead sbd 1977".toList)))
      ("sbd".toList) = true ∧
    extractSourceType (some ("matrix".toList))
      (some ("Grateful Dead sbd 1977".toList)) = .matrix ∧
    SourceType.matrix ≠ SourceType.sbd :=
  ⟨by decide, by decide, by decide⟩

/-- Claim C4 (amended): the repository has two source-type inference
routines.  `inferSourceType` (archiveApi.ts) inspects the combined
lowercase source/title/identifier text and returns soundboard when a
soundboard marker ("sbd"/"soundboard"/"sound board") appears anywhere —
regardless of field — otherwise matrix on "matrix"/"mtx", otherwise
audience on "aud"/"audience"/"fob"/"dfc", otherwise unknown.  The
selector's own inference (`extractSourceType`) instead checks the source
field for all of its markers ("sbd"/"soundboard", then "matrix", then
"aud"/"audience") before consulting the title field and never reads the
identifier, so a matrix marker in the source field beats a soundboard
marker in the title. -/
theorem C4_amended (m : ArchiveMeta) (src ttl : Option (List Char)) :
    (inferSourceType m = .sbd ↔ hasSbdMarker (combinedOf m) = true) ∧
    (inferSourceType m = .matrix ↔
      hasSbdMarker (combinedOf m) = false ∧
        hasMatrixMarker (combinedOf m) = true) ∧
    (inferSourceType m = .aud ↔
      hasSbdMarker (combinedOf m) = false ∧
        hasMatrixMarker (combinedOf m) = false ∧
        hasAudMarker (combinedOf m) = true) ∧
    (inferSourceType m = .unknown ↔
      hasSbdMarker (combinedOf m) = false ∧
        hasMatrixMarker (combinedOf m) = false ∧
        hasAudMarker (combinedOf m) = false) ∧
    (hasSbdMarker (optLower m.source) = true ∨
        hasSbdMarker (optLower m.title) = true ∨
        hasSbdMarker (strLower m.identifier) = true →
      inferSourceType m = .sbd) ∧
    (strContains (optLower src) ("sbd".toList) = false →
      strContains (optLower src) ("soundboard".toList) = false →
      strContains (optLower src) ("matrix".toList) = true →
      extractSourceType src ttl = .matrix) := by
  obtain ⟨hdS, hdT, hdI⟩ := combinedOf_decomp m
  have ha : inferSourceType m = .sbd ↔ hasSbdMarker (combinedOf m) = true := by
    unfold inferSourceType
    cases hsbd : hasSbdMarker (combinedOf m) <;>
      cases hmtx : hasMatrixMarker (combinedOf m) <;>
        cases haud : hasAudMarker (combinedOf m) <;> simp [hsbd, hmtx, haud]
  refine ⟨ha, ?_, ?_, ?_, ?_, ?_⟩
  · unfold inferSourceType
    cases hsbd : hasSbdMarker (combinedOf m) <;>
      cases hmtx : hasMatrixMarker (combinedOf m) <;>
        cases haud : hasAudMarker (combinedOf m) <;> simp [hsbd, hmtx, haud]
  · unfold inferSourceType
    cases hsbd : hasSbdMarker (combinedOf m) <;>
      cases hmtx : hasMatrixMarker (combinedOf m) <;>
        cases haud : hasAudMarker (combinedOf m) <;> simp [hsbd, hmtx, haud]
  · unfold inferSourceType
    cases hsbd : hasSbdMarker (combinedOf m) <;>
      cases hmtx : hasMatrixMarker (combinedOf m) <;>
        cases haud : hasAudMarker (combinedOf m) <;> simp [hsbd, hmtx, haud]
  · intro h
    refine ha.mpr ?_
    rcases h with h | h | h
    · rw [hdS]
      exact hasSbdMarker_append_mono _ _ h
    · rw [hdT]
      exact hasSbdMarker_append_mono _ _ h
    · rw [hdI]
      exact hasSbdMarker_append_mono _ _ h
  · intro h1 h2 h3
    simp only [extractSourceType]
    rw [if_neg, if_pos]
    · exact h3
    · simp only [Bool.not_eq_true, Bool.or_eq_false_iff]
      exact ⟨h1, h2⟩

/-- Claim C4 witness: at concrete inputs, a soundboard marker that
appears only in the identifier makes `inferSourceType` answer
soundboard, while the selector's inference answers matrix from the
source field even though the title holds an "sbd" marker. -/
theorem C4_witness :
    inferSourceType
      { identifier := ("gd77-05-08.sbd.hicks".toList), title := none,
        source := none } = .sbd ∧
    extractSourceType (some ("matrix".toList)) (some ("sbd".toList)) =
      .matrix :=
  ⟨(C4_amended
      { identifier := ("gd77-05-08.sbd.hicks".toList), title := none,
        source := none } none none).2.2.2.2.1
      (Or.inr (Or.inr (by decide))),
    (C4_amended
      { identifier := [], title := none, source := none }
      (some ("matrix".toList)) (some ("sbd".toList))).2.2.2.2.2
      (by decide) (by decide) (by decide)⟩

/-! ## Claim C3 -/

/-- The generation branch of `scoreLineage` computes the closed form
`max(30, 90 - 15*(N-1))` for every parsed generation `N ≥ 1`. -/
theorem genScore_eq_closed_form (g : ℕ) (hg : 1 ≤ g) :
    genScore g = (max 30 (90 - 15 * ((g : ℤ) - 1))).toNat := by
  unfold genScore
  split_ifs with h1 h2 h3 h4
  · subst h1; decide
  · subst h2; decide
  · subst h3; decide
  · subst h4; decide
  · omega

/-- Claim C3: `scoreLineage` returns 50 for an absent lineage (in the
code, `null` or the empty string — the JS falsiness test; every caller
additionally normalises the empty string to `null` via
`meta.lineage || null`), 100 for a lineage containing "master" or
"original", 60 for a present-but-unparseable lineage, and for every
lineage from which a generation number `N ≥ 1` is parsed by the regex
`m(\d+)|(\d+)(st|nd|rd|th)\s*gen` exactly `max(30, 90 - 15*(N-1))`; in
particular m1 → 90, m2 → 75, m3 → 60. -/
theorem C3_scoreLineage_spec :
    scoreLineage none = 50 ∧ scoreLineage (some []) = 50 ∧
    (∀ s : List Char, s ≠ [] →
      (strContains (strTrim (strLower s)) ("master".toList) ||
        strContains (strTrim (strLower s)) ("original".toList)) = true →
      scoreLineage (some s) = 100) ∧
    (∀ s : List Char, s ≠ [] →
      (strContains (strTrim (strLower s)) ("master".toList) ||
        strContains (strTrim (strLower s)) ("original".toList)) = false →
      genSearch (strTrim (strLower s)) = none →
      scoreLineage (some s) = 60) ∧
    (∀ (s : List Char) (g : ℕ), s ≠ [] →
      (strContains (strTrim (strLower s)) ("master".toList) ||
        strContains (strTrim (strLower s)) ("original".toList)) = false →
      genSearch (strTrim (strLower s)) = some g → 1 ≤ g →
      scoreLineage (some s) = (max 30 (90 - 15 * ((g : ℤ) - 1))).toNat) ∧
    scoreLineage (some ("m1".toList)) = 90 ∧
    scoreLineage (some ("m2".toList)) = 75 ∧
    scoreLineage (some ("m3".toList)) = 60 := by
  refine ⟨by decide, by decide, ?_, ?_, ?_, by decide, by decide, by decide⟩
  · intro s hs hm
    have hne : s.isEmpty = false := by
      cases s with
      | nil => exact absurd rfl hs
      | cons a as => rfl
    have hm' : (strContains (strTrim (strLower s))
        ['m', 'a', 's', 't', 'e', 'r'] ||
      strContains (strTrim (strLower s))
        ['o', 'r', 'i', 'g', 'i', 'n', 'a', 'l']) = true := hm
    simp [scoreLineage, hne, hm']
  · intro s hs hm hgen
    have hne : s.isEmpty = false := by
      cases s with
      | nil => exact absurd rfl hs
      | cons a as => rfl
    have hm' : (strContains (strTrim (strLower s))
        ['m', 'a', 's', 't', 'e', 'r'] ||
      strContains (strTrim (strLower s))
        ['o', 'r', 'i', 'g', 'i', 'n', 'a', 'l']) = false := hm
    simp [scoreLineage, hne, hm', hgen]
  · intro s g hs hm hgen hg
    have hne : s.isEmpty = false := by
      cases s with
      | nil => exact absurd rfl hs
      | cons a as => rfl
    have hm' : (strContains (strTrim (strLower s))
        ['m', 'a', 's', 't', 'e', 'r'] ||
      strContains (strTrim (strLower s))
        ['o', 'r', 'i', 'g', 'i', 'n', 'a', 'l']) = false := hm
    rw [← genScore_eq_closed_form g hg]
    simp [scoreLineage, hne, hm', hgen]

/-- Claim C3 witness: the theorem applied at "2nd gen" (generation 2,
giving `max(30, 75) = 75`), at an unparseable lineage, and at
"Master Recording". -/
theorem C3_witness :
    scoreLineage (some ("2nd gen".toList)) =
      (max 30 (90 - 15 * ((2 : ℤ) - 1))).toNat ∧
    scoreLineage (some ("some transfer info".toList)) = 60 ∧
    scoreLineage (some ("Master Recording".toList)) = 100 :=
  ⟨C3_scoreLineage_spec.2.2.2.2.1 ("2nd gen".toList) 2 (by decide) (by decide)
      (by decide) (by decide),
    C3_scoreLineage_spec.2.2.2.1 ("some transfer info".toList) (by decide)
      (by decide) (by decide),
    C3_scoreLineage_spec.2.2.1 ("Master Recording".toList) (by decide)
      (by decide)⟩

/-! ## Component score bounds -/

theorem scoreSourceType_le (s : Option (List Char)) :
    scoreSourceType s ≤ 100 := by
  unfold scoreSourceType
  cases s with
  | none => norm_num
  | some l =>
    dsimp only
    split_ifs <;> norm_num

theorem scoreFormat_le (f : List Char) : scoreFormat f ≤ 100 := by
  simp only [scoreFormat]
  cases hfb : findBitrate (strTrim (strLower f)) with
  | none => simp only [hfb]; split_ifs <;> norm_num
  | some b => simp only [hfb]; split_ifs <;> norm_num

theorem genScore_le (g : ℕ) : genScore g ≤ 100 := by
  unfold genScore
  split_ifs <;> omega

theorem scoreLineage_le (l : Option (List Char)) : scoreLineage l ≤ 100 := by
  unfold scoreLineage
  cases l with
  | none => norm_num
  | some s =>
    dsimp only
    split_ifs <;> try norm_num
    split
    · exact genScore_le _
    · norm_num

theorem scoreTaper_le (t : Option (List Char)) : scoreTaper t ≤ 100 := by
  unfold scoreTaper
  cases t with
  | none => norm_num
  | some s =>
    dsimp only
    split_ifs <;> norm_num

theorem scoreCommunityRating_bounds {a n : ℝ} (ha0 : 0 ≤ a) (ha5 : a ≤ 5)
    (hn : 0 ≤ n) :
    0 ≤ scoreCommunityRating a n ∧ scoreCommunityRating a n ≤ 100 := by
  simp only [scoreCommunityRating]
  have hlogb : (0 : ℝ) ≤ Real.logb 10 (n + 1) :=
    Real.logb_nonneg (by norm_num) (by linarith)
  have hconf0 : (0 : ℝ) ≤ min 1 (Real.logb 10 (n + 1) / 2) :=
    le_min (by norm_num) (by linarith)
  have hconf1 : min 1 (Real.logb 10 (n + 1) / 2) ≤ 1 := min_le_left _ _
  constructor
  · have h3 : (0 : ℝ) ≤ a / 5 * 100 := by linarith
    have h4 : (0 : ℝ) ≤ 0.5 + 0.5 * min 1 (Real.logb 10 (n + 1) / 2) := by
      linarith
    exact mul_nonneg h3 h4
  · have h1 : a / 5 * 100 ≤ 100 := by linarith
    have h2 : 0.5 + 0.5 * min 1 (Real.logb 10 (n + 1) / 2) ≤ 1 := by linarith
    have h3 : (0 : ℝ) ≤ a / 5 * 100 := by linarith
    calc a / 5 * 100 * (0.5 + 0.5 * min 1 (Real.logb 10 (n + 1) / 2)) ≤
        100 * 1 := mul_le_mul h1 h2 (by linarith) (by norm_num)
      _ = 100 := by norm_num

theorem jsRound2_nonneg {x : ℝ} (hx : 0 ≤ x) : 0 ≤ jsRound2 x := by
  unfold jsRound2
  have h1 : (0 : ℤ) ≤ ⌊x * 100 + 1 / 2⌋ := Int.floor_nonneg.mpr (by linarith)
  have h2 : (0 : ℝ) ≤ (⌊x * 100 + 1 / 2⌋ : ℝ) := by exact_mod_cast h1
  linarith

theorem jsRound2_le_point1 {x : ℝ} (hx : x ≤ 100.1) :
    jsRound2 x ≤ 100.1 := by
  unfold jsRound2
  have h1 : ⌊x * 100 + 1 / 2⌋ ≤ ⌊(10010.5 : ℝ)⌋ :=
    Int.floor_le_floor (by linarith)
  have h2 : ⌊(10010.5 : ℝ)⌋ = 10010 := by
    rw [Int.floor_eq_iff]
    norm_num
  have h3 : (⌊x * 100 + 1 / 2⌋ : ℝ) ≤ 10010 := by
    exact_mod_cast h1.trans_eq h2
  linarith

/-! ## Claim C1 -/

/-- Claim C1 counterexample data: a recording for which every component
scores exactly 100. -/
noncomputable def cexRecording : RecordingQuality :=
  { identifier := ("gd77-05-08.sbd.hicks".toList),
    sourceType := some ("sbd".toList), format := ("flac".toList),
    avgRating := 5, numReviews := 99, lineage := some ("master".toList),
    taper := some ("miller".toList), transferer := none }

/-- Claim C1 counterexample data: five equal non-negative weights summing
to 1.0008, within the 1e-3 tolerance of 1.0. -/
noncomputable def cexWeights : ScoringWeights :=
  { sourceType := 0.20016, format := 0.20016, communityRating := 0.20016,
    lineage := 0.20016, taper := 0.20016 }

/-- Claim C1 counterexample: with all five component scores equal to 100
and a weight vector summing to 1.0008 (non-negative, within 1e-3 of 1.0,
avgRating in [0,5], numReviews ≥ 0), the composite score is 100.08 —
outside [0,100], refuting the claimed upper bound. -/
theorem C1_counterexample :
    0 ≤ cexWeights.sourceType ∧ 0 ≤ cexWeights.format ∧
    0 ≤ cexWeights.communityRating ∧ 0 ≤ cexWeights.lineage ∧
    0 ≤ cexWeights.taper ∧ |weightsSum cexWeights - 1| < 0.001 ∧
    0 ≤ cexRecording.avgRating ∧ cexRecording.avgRating ≤ 5 ∧
    0 ≤ cexRecording.numReviews ∧
    100 < scoreRecording cexRecording cexWeights := by
  have hsrc : scoreSourceType cexRecording.sourceType = 100 := by decide
  have hfmt : scoreFormat cexRecording.format = 100 := by decide
  have hlin : scoreLineage cexRecording.lineage = 100 := by decide
  have htap : scoreTaper cexRecording.taper = 100 := by decide
  have hlogb : Real.logb 10 ((99 : ℝ) + 1) = 2 := by
    rw [show ((99 : ℝ) + 1) = 10 ^ (2 : ℕ) by norm_num, Real.logb_pow,
      Real.logb_self_eq_one (by norm_num)]
    norm_num
  have hcr : scoreCommunityRating cexRecording.avgRating
      cexRecording.numReviews = 100 := by
    show scoreCommunityRating 5 99 = 100
    simp only [scoreCommunityRating]
    rw [hlogb, show (2 : ℝ) / 2 = 1 by norm_num, min_self]
    norm_num
  have hscore : scoreRecording cexRecording cexWeights = 100.08 := by
    simp only [scoreRecording, hsrc, hfmt, hcr, hlin, htap]
    have hw : cexWeights.sourceType = 0.20016 ∧ cexWeights.format = 0.20016 ∧
        cexWeights.communityRating = 0.20016 ∧ cexWeights.lineage = 0.20016 ∧
        cexWeights.taper = 0.20016 :=
      ⟨rfl, rfl, rfl, rfl, rfl⟩
    rw [hw.1, hw.2.1, hw.2.2.1, hw.2.2.2.1, hw.2.2.2.2]
    unfold jsRound2
    rw [show ((100 : ℕ) : ℝ) * 0.20016 + ((100 : ℕ) : ℝ) * 0.20016 +
        (100 : ℝ) * 0.20016 + ((100 : ℕ) : ℝ) * 0.20016 +
        ((100 : ℕ) : ℝ) * 0.20016 = 100.08 by norm_num]
    rw [show (100.08 : ℝ) * 100 + 1 / 2 = 10008.5 by norm_num]
    rw [show ⌊(10008.5 : ℝ)⌋ = 10008 by rw [Int.floor_eq_iff]; norm_num]
    norm_num
  refine ⟨by norm_num [cexWeights], by norm_num [cexWeights],
    by norm_num [cexWeights], by norm_num [cexWeights],
    by norm_num [cexWeights],
    by
      have h : weightsSum cexWeights - 1 = 1 / 1250 := by
        norm_num [cexWeights, weightsSum]
      rw [h, abs_of_nonneg (by norm_num : (0 : ℝ) ≤ 1 / 1250)]
      norm_num,
    by norm_num [cexRecording], by norm_num [cexRecording],
    by norm_num [cexRecording], by rw [hscore]; norm_num⟩

/-- Claim C1 (amended): for every recording with avgRating in [0,5] and
numReviews ≥ 0 and every weight vector with non-negative components whose
sum is within 1e-3 of 1.0, `scoreRecording` returns the weighted sum of
the five component scores rounded to 2 decimal places, and the composite
score lies in [0, 100.1] (it lies in [0, 100] only when the weights sum
to at most 1; with the tolerance the bound 100·1.001 = 100.1 is sharp up
to rounding, as the counterexample shows). -/
theorem C1_amended (r : RecordingQuality) (w : ScoringWeights)
    (hw1 : 0 ≤ w.sourceType) (hw2 : 0 ≤ w.format)
    (hw3 : 0 ≤ w.communityRating) (hw4 : 0 ≤ w.lineage) (hw5 : 0 ≤ w.taper)
    (hsum : |weightsSum w - 1| ≤ 0.001)
    (hr0 : 0 ≤ r.avgRating) (hr5 : r.avgRating ≤ 5)
    (hrn : 0 ≤ r.numReviews) :
    scoreRecording r w =
      jsRound2 ((scoreSourceType r.sourceType : ℝ) * w.sourceType +
        (scoreFormat r.format : ℝ) * w.format +
        scoreCommunityRating r.avgRating r.numReviews * w.communityRating +
        (scoreLineage r.lineage : ℝ) * w.lineage +
        (scoreTaper r.taper : ℝ) * w.taper) ∧
    0 ≤ scoreRecording r w ∧ scoreRecording r w ≤ 100.1 := by
  have hcast : ∀ n : ℕ, n ≤ 100 → (n : ℝ) ≤ 100 := fun n h => by
    exact_mod_cast h
  have hs1 : (scoreSourceType r.sourceType : ℝ) ≤ 100 :=
    hcast _ (scoreSourceType_le _)
  have hs2 : (scoreFormat r.format : ℝ) ≤ 100 := hcast _ (scoreFormat_le _)
  have hs4 : (scoreLineage r.lineage : ℝ) ≤ 100 := hcast _ (scoreLineage_le _)
  have hs5 : (scoreTaper r.taper : ℝ) ≤ 100 := hcast _ (scoreTaper_le _)
  have hn1 : (0 : ℝ) ≤ (scoreSourceType r.sourceType : ℝ) := Nat.cast_nonneg _
  have hn2 : (0 : ℝ) ≤ (scoreFormat r.format : ℝ) := Nat.cast_nonneg _
  have hn4 : (0 : ℝ) ≤ (scoreLineage r.lineage : ℝ) := Nat.cast_nonneg _
  have hn5 : (0 : ℝ) ≤ (scoreTaper r.taper : ℝ) := Nat.cast_nonneg _
  obtain ⟨hc0, hc100⟩ := scoreCommunityRating_bounds hr0 hr5 hrn
  have t1 : (scoreSourceType r.sourceType : ℝ) * w.sourceType ≤
      100 * w.sourceType := mul_le_mul_of_nonneg_right hs1 hw1
  have t2 : (scoreFormat r.format : ℝ) * w.format ≤ 100 * w.format :=
    mul_le_mul_of_nonneg_right hs2 hw2
  have t3 : scoreCommunityRating r.avgRating r.numReviews *
      w.communityRating ≤ 100 * w.communityRating :=
    mul_le_mul_of_nonneg_right hc100 hw3
  have t4 : (scoreLineage r.lineage : ℝ) * w.lineage ≤ 100 * w.lineage :=
    mul_le_mul_of_nonneg_right hs4 hw4
  have t5 : (scoreTaper r.taper : ℝ) * w.taper ≤ 100 * w.taper :=
    mul_le_mul_of_nonneg_right hs5 hw5
  have z1 := mul_nonneg hn1 hw1
  have z2 := mul_nonneg hn2 hw2
  have z3 := mul_nonneg hc0 hw3
  have z4 := mul_nonneg hn4 hw4
  have z5 := mul_nonneg hn5 hw5
  have hsum' : weightsSum w ≤ 1.001 := by
    have := (abs_le.mp hsum).2
    linarith
  have hub : (scoreSourceType r.sourceType : ℝ) * w.sourceType +
      (scoreFormat r.format : ℝ) * w.format +
      scoreCommunityRating r.avgRating r.numReviews * w.communityRating +
      (scoreLineage r.lineage : ℝ) * w.lineage +
      (scoreTaper r.taper : ℝ) * w.taper ≤ 100.1 := by
    have : weightsSum w =
        w.sourceType + w.format + w.communityRating + w.lineage + w.taper :=
      rfl
    linarith
  exact ⟨rfl, jsRound2_nonneg (by linarith), jsRound2_le_point1 hub⟩

/-- Claim C1 witness data: a plain recording with no reviews. -/
noncomputable def witRecording : RecordingQuality :=
  { identifier := ("gd80-06-07.aud".toList),
    sourceType := some ("aud".toList), format := ("mp3".toList),
    avgRating := 4, numReviews := 0, lineage := none, taper := none,
    transferer := none }

/-- Claim C1 witness: the amended theorem applied to a concrete recording
and the balanced preset (whose weights sum to exactly 1). -/
theorem C1_witness :
    |weightsSum balancedWeights - 1| ≤ 0.001 ∧
    0 ≤ witRecording.avgRating ∧ witRecording.avgRating ≤ 5 ∧
    0 ≤ witRecording.numReviews ∧
    0 ≤ scoreRecording witRecording balancedWeights ∧
    scoreRecording witRecording balancedWeights ≤ 100.1 :=
  ⟨by norm_num [weightsSum, balancedWeights],
    by norm_num [witRecording], by norm_num [witRecording],
    by norm_num [witRecording],
    (C1_amended witRecording balancedWeights
      (by norm_num [balancedWeights]) (by norm_num [balancedWeights])
      (by norm_num [balancedWeights]) (by norm_num [balancedWeights])
      (by norm_num [balancedWeights])
      (by norm_num [weightsSum, balancedWeights])
      (by norm_num [witRecording]) (by norm_num [witRecording])
      (by norm_num [witRecording])).2⟩

/-! ## Stable sort lemmas -/

theorem insertByScoreDesc_perm {α : Type} (key : α → ℝ) (x : α)
    (l : List α) : List.Perm (insertByScoreDesc key x l) (x :: l) := by
  induction l with
  | nil => exact List.Perm.refl _
  | cons y ys ih =>
    simp only [insertByScoreDesc]
    split_ifs with h
    · exact (ih.cons y).trans (List.Perm.swap x y ys)
    · exact List.Perm.refl _

theorem sortByScoreDesc_perm {α : Type} (key : α → ℝ) (l : List α) :
    List.Perm (sortByScoreDesc key l) l := by
  induction l with
  | nil => exact List.Perm.refl _
  | cons x xs ih =>
    exact (insertByScoreDesc_perm key x _).trans (ih.cons x)

theorem insertByScoreDesc_pairwise {α : Type} (key : α → ℝ) (x : α)
    {l : List α} (hl : l.Pairwise fun a b => key b ≤ key a) :
    (insertByScoreDesc key x l).Pairwise fun a b => key b ≤ key a := by
  induction l with
  | nil => simp [insertByScoreDesc]
  | cons y ys ih =>
    obtain ⟨hy, hys⟩ := List.pairwise_cons.mp hl
    simp only [insertByScoreDesc]
    split_ifs with h
    · refine List.pairwise_cons.mpr ⟨?_, ih hys⟩
      intro z hz
      have hz' : z = x ∨ z ∈ ys := by
        have := (insertByScoreDesc_perm key x ys).mem_iff.mp hz
        simpa using this
      rcases hz' with rfl | hz'
      · exact le_of_lt h
      · exact hy z hz'
    · refine List.pairwise_cons.mpr ⟨?_, hl⟩
      intro z hz
      rcases List.mem_cons.mp hz with rfl | hz'
      · exact not_lt.mp h
      · exact (hy z hz').trans (not_lt.mp h)

theorem sortByScoreDesc_pairwise {α : Type} (key : α → ℝ) (l : List α) :
    (sortByScoreDesc key l).Pairwise fun a b => key b ≤ key a := by
  induction l with
  | nil => simp [sortByScoreDesc]
  | cons x xs ih => exact insertByScoreDesc_pairwise key x ih

theorem insertByScoreDesc_filter_pos {α : Type} (key : α → ℝ)
    (p : α → Bool) (x : α) (l : List α) (hx : p x = true)
    (hcls : ∀ y, p y = true → key y = key x) :
    (insertByScoreDesc key x l).filter p = x :: l.filter p := by
  induction l with
  | nil => simp [insertByScoreDesc, hx]
  | cons y ys ih =>
    simp only [insertByScoreDesc]
    split_ifs with h
    · have hpy : p y = false := by
        cases hy : p y
        · rfl
        · exact absurd (hcls y hy ▸ h) (lt_irrefl _)
      simp only [List.filter_cons, hpy, Bool.false_eq_true, if_false, ih]
    · simp [List.filter_cons, hx]

theorem insertByScoreDesc_filter_neg {α : Type} (key : α → ℝ)
    (p : α → Bool) (x : α) (l : List α) (hx : p x = false) :
    (insertByScoreDesc key x l).filter p = l.filter p := by
  induction l with
  | nil => simp [insertByScoreDesc, hx]
  | cons y ys ih =>
    simp only [insertByScoreDesc]
    split_ifs with h
    · simp only [List.filter_cons, ih]
    · simp [List.filter_cons, hx]

/-- Stability of the descending sort: any selection of elements that all
share one key value comes out of the sort in its original relative
order. -/
theorem sortByScoreDesc_filter {α : Type} (key : α → ℝ) (p : α → Bool)
    (l : List α)
    (hcls : ∀ a b, p a = true → p b = true → key a = key b) :
    (sortByScoreDesc key l).filter p = l.filter p := by
  induction l with
  | nil => rfl
  | cons x xs ih =>
    simp only [sortByScoreDesc]
    cases hx : p x with
    | true =>
      rw [insertByScoreDesc_filter_pos key p x _ hx
        (fun y hy => hcls y x hy hx), ih]
      simp [List.filter_cons, hx]
    | false =>
      rw [insertByScoreDesc_filter_neg key p x _ hx, ih]
      simp [List.filter_cons, hx]

/-! ## Claim C2 -/

/-- Claim C2: for every list of recordings and every weight vector,
`scoreAndSortRecordings` returns the scored recordings as a permutation
of the input, sorted descending by composite score, each element carrying
the composite score of its recording; and the sort is stable — any
selection of output elements sharing one exact score value appears in the
same order as in the (mapped) input. -/
theorem C2_scoreAndSort_spec (recordings : List RecordingQuality)
    (weights : ScoringWeights) :
    List.Perm (scoreAndSortRecordings recordings weights)
      (recordings.map fun r =>
        { recording := r, score := scoreRecording r weights }) ∧
    (scoreAndSortRecordings recordings weights).Pairwise
      (fun a b => b.score ≤ a.score) ∧
    (∀ x ∈ scoreAndSortRecordings recordings weights,
      x.score = scoreRecording x.recording weights) ∧
    (∀ p : ScoredRecording → Bool,
      (∀ a b, p a = true → p b = true → a.score = b.score) →
      (scoreAndSortRecordings recordings weights).filter p =
        (recordings.map fun r =>
          { recording := r, score := scoreRecording r weights }).filter p) := by
  refine ⟨sortByScoreDesc_perm _ _, sortByScoreDesc_pairwise _ _, ?_,
    fun p hp => sortByScoreDesc_filter _ p _ hp⟩
  intro x hx
  have hx' : x ∈ recordings.map fun r =>
      { recording := r, score := scoreRecording r weights } :=
    (sortByScoreDesc_perm (fun r : ScoredRecording => r.score) _).mem_iff.mp hx
  obtain ⟨r, _, rfl⟩ := List.mem_map.mp hx'
  rfl

/-- Claim C2 witness data: a minimal recording. -/
noncomputable def c2Recording : RecordingQuality :=
  { identifier := ("a".toList), sourceType := none, format := [],
    avgRating := 0, numReviews := 0, lineage := none, taper := none,
    transferer := none }

/-- Claim C2 witness: the theorem applied to a concrete singleton list,
with the stability part instantiated at a selection predicate whose
single-key-class hypothesis is discharged vacuously. -/
theorem C2_witness :
    (∀ a b : ScoredRecording, (fun _ : ScoredRecording => false) a = true →
      (fun _ : ScoredRecording => false) b = true → a.score = b.score) ∧
    (scoreAndSortRecordings [c2Recording] balancedWeights).filter
        (fun _ => false) =
      ([c2Recording].map fun r =>
        { recording := r, score := scoreRecording r balancedWeights }).filter
        (fun _ => false) :=
  ⟨fun _ _ h _ => absurd h (by simp),
    (C2_scoreAndSort_spec [c2Recording] balancedWeights).2.2.2
      (fun _ => false) (fun _ _ h _ => absurd h (by simp))⟩

/-! ## Claim C8 -/

/-- Claim C8: `updateCustomWeights` accepts and persists a weight vector
exactly when the sum of its five components is within the tolerance
(strictly less than 1e-3 away from 1.0, as `validateScoringWeights`
tests); on success the persisted preferences carry the new weights under
the `custom` preset with the other preference groups untouched; on
validation failure the call returns failure, nothing is persisted, and
the returned preferences equal the input preferences unchanged. -/
theorem C8_updateCustomWeights_spec (store : PrefStore)
    (prefs : UserPreferences) (w : ScoringWeights) :
    ((updateCustomWeights store prefs w).2.success = true ↔
      |weightsSum w - 1| < 0.001) ∧
    (|weightsSum w - 1| < 0.001 →
      (updateCustomWeights store prefs w).1 =
        some (updateCustomWeights store prefs w).2.preferences ∧
      (updateCustomWeights store prefs w).2.preferences.scoring.customWeights =
        some w ∧
      (updateCustomWeights store prefs w).2.preferences.scoring.activePreset =
        .custom ∧
      (updateCustomWeights store prefs w).2.preferences.playback =
        prefs.playback ∧
      (updateCustomWeights store prefs w).2.preferences.display =
        prefs.display) ∧
    (¬|weightsSum w - 1| < 0.001 →
      (updateCustomWeights store prefs w).1 = store ∧
      (updateCustomWeights store prefs w).2.preferences = prefs ∧
      (updateCustomWeights store prefs w).2.success = false) := by
  have hval : validateScoringWeights w ↔ |weightsSum w - 1| < 0.001 := Iff.rfl
  unfold updateCustomWeights
  split_ifs with h
  · refine ⟨⟨fun _ => hval.mp h, fun _ => rfl⟩, ?_, ?_⟩
    · intro _
      exact ⟨rfl, rfl, rfl, rfl, rfl⟩
    · intro hn
      exact absurd (hval.mp h) hn
  · refine ⟨⟨fun hc => absurd hc (by simp), fun hc => absurd (hval.mpr hc) h⟩,
      ?_, ?_⟩
    · intro hc
      exact absurd (hval.mpr hc) h
    · intro _
      exact ⟨rfl, rfl, rfl⟩

/-- Claim C8 witness data: default-shaped preferences. -/
noncomputable def c8Prefs : UserPreferences :=
  { scoring := { activePreset := .balanced, customWeights := none },
    playback := { volume := 0.8, autoPlay := false, crossfade := 0 },
    display := { theme := .dark, fontSize := .normal } }

/-- Claim C8 witness: the theorem applied to an empty store, concrete
preferences, and the balanced weights (whose sum is exactly 1, so the
vector validates and is persisted). -/
theorem C8_witness :
    |weightsSum balancedWeights - 1| < 0.001 ∧
    (updateCustomWeights none c8Prefs balancedWeights).2.success = true ∧
    (updateCustomWeights none c8Prefs balancedWeights).1 =
      some (updateCustomWeights none c8Prefs balancedWeights).2.preferences := by
  have hsum : |weightsSum balancedWeights - 1| < 0.001 := by
    rw [show weightsSum balancedWeights - 1 = 0 by
      norm_num [weightsSum, balancedWeights]]
    simp only [abs_zero]
    norm_num
  exact ⟨hsum,
    (C8_updateCustomWeights_spec none c8Prefs balancedWeights).1.mpr hsum,
    ((C8_updateCustomWeights_spec none c8Prefs balancedWeights).2.1 hsum).1⟩

/-! ## Claim C9 -/

/-- Claim C9 (code bug): `RateLimiter.throttle` computes its wait from
the `lastRequest` value read at entry, but concurrent callers — exactly
what `fetchRecordingQualities` creates by mapping `getMetadata` over the
candidates — all enter in the same event-loop tick and read the same
`lastRequest` before any of them updates it.  With a fresh limiter and
three candidates entering at t = 2000ms, the outbound calls fire at
times 2000, 3000 and 3000: the second and third are simultaneous (gap 0,
not ≥ 1000ms) and the whole enrichment completes 1000ms after entry, not
the claimed ≥ (N−1) = 2 seconds.  A single sequential call at the same
instant would fire immediately and leave a full 1000ms wait for the
next, which is the behaviour the code's own comments ("1 second between
requests", "rate limiting handled by archiveApi") promise for the
concurrent case as well. -/
theorem C9_throttle_race :
    sameTickFireTimes 0 2000 3 = [2000, 3000, 3000] ∧
    ¬ List.Chain' (fun a b => a + MIN_REQUEST_INTERVAL ≤ b)
      (sameTickFireTimes 0 2000 3) ∧
    (∀ t ∈ sameTickFireTimes 0 2000 3, t - 2000 ≤ 1000) ∧
    seqFireTime 0 2000 = 2000 ∧ throttleWait 2000 2000 = 1000 := by
  refine ⟨by decide, ?_, by decide, by decide, by decide⟩
  rw [show sameTickFireTimes 0 2000 3 = [2000, 3000, 3000] from by decide]
  intro h
  have h23 : (3000 : ℤ) + MIN_REQUEST_INTERVAL ≤ 3000 :=
    (List.chain'_cons.mp (List.chain'_cons.mp h).2).1
  rw [MIN_REQUEST_INTERVAL] at h23
  omega

/-! ## Audio player operation lemmas -/

theorem setState_fst_state (s : PlayerState) (p : Player) :
    (setState s p).1.state = s := by
  unfold setState
  split_ifs with h
  · exact h
  · rfl

theorem setState_audio (s : PlayerState) (p : Player) :
    (setState s p).1.audio = p.audio ∧
    (setState s p).1.playlist = p.playlist ∧
    (setState s p).1.currentIndex = p.currentIndex := by
  unfold setState
  split_ifs <;> exact ⟨rfl, rfl, rfl⟩

theorem setState_events (s : PlayerState) (p : Player) :
    (setState s p).2 = [] ∨ (setState s p).2 = [PlayerEvent.stateChange s] := by
  unfold setState
  split_ifs
  · exact Or.inl rfl
  · exact Or.inr rfl

theorem elemPause_spec (p : Player) :
    (elemPause p).1.audio.paused = true ∧
    (elemPause p).1.audio.src = p.audio.src ∧
    (elemPause p).1.playlist = p.playlist ∧
    (elemPause p).1.currentIndex = p.currentIndex ∧
    ((elemPause p).2 = [] ∨
      (elemPause p).2 = [PlayerEvent.stateChange .paused]) := by
  unfold elemPause
  split_ifs with h
  · exact ⟨h, rfl, rfl, rfl, Or.inl rfl⟩
  · simp only [opSeq, opPure, handlePauseEvt]
    split_ifs with h2
    · obtain ⟨ha, hp, hi⟩ := setState_audio .paused _
      refine ⟨?_, ?_, ?_, ?_, ?_⟩
      · rw [ha]
      · rw [ha]
      · rw [hp]
      · rw [hi]
      · rcases setState_events .paused
          { p with audio := { p.audio with paused := true } } with he | he
        · exact Or.inl (by rw [List.nil_append, he])
        · exact Or.inr (by rw [List.nil_append, he])
    · exact ⟨rfl, rfl, rfl, rfl, Or.inl rfl⟩

theorem loadCurrentTrack_some {p : Player} {t : AudioTrack}
    (h : p.playlist[p.currentIndex]? = some t) :
    (loadCurrentTrack p).1.state = .loading ∧
    (loadCurrentTrack p).1.audio.src = some t.url ∧
    (loadCurrentTrack p).1.playlist = p.playlist ∧
    (loadCurrentTrack p).1.currentIndex = p.currentIndex ∧
    PlayerEvent.trackChange (some t) ∈ (loadCurrentTrack p).2 := by
  unfold loadCurrentTrack
  rw [h]
  simp only [opSeq, opPure, opEmit, elemLoad, handleLoadstart]
  obtain ⟨ha, hp, hi⟩ := setState_audio .loading _
  refine ⟨setState_fst_state _ _, ?_, ?_, ?_, ?_⟩
  · rw [ha]
  · rw [hp]
  · rw [hi]
  · simp

theorem elemPlayOk_state (p : Player) : (elemPlayOk p).1.state = .playing := by
  simp only [elemPlayOk, opSeq, opPure, handlePlaying]
  exact setState_fst_state _ _

/-! ## Claim C5 -/

/-- Claim C5 counterexample data: a player 5 seconds into a track whose
duration is not (yet) known — `audio.duration` is `NaN`. -/
def c5Player : Player :=
  { audio :=
      { src := some ("https://archive.org/t1.mp3".toList), currentTime := 5,
        duration := none, paused := false, volume := 1 },
    playlist := [], currentIndex := 0, state := .playing }

/-- Claim C5 counterexample: with an unknown/NaN duration, `seekTo(7)`
leaves the position at 5 — the guard `if (this.audio.duration)` makes the
call a no-op, so the position does not become 0 as the claim states. -/
theorem C5_counterexample :
    c5Player.audio.duration = none ∧
    (seekTo 7 c5Player).1.audio.currentTime = 5 ∧ (5 : ℚ) ≠ 0 :=
  ⟨rfl, rfl, by norm_num⟩

/-- Claim C5 (amended): when the duration is known and non-zero,
`seekTo(t)` sets the position to `t` clamped into `[0, duration]`, hence
never outside that interval; when the duration is unknown/NaN (or 0 — the
JS falsy values), `seekTo` leaves the player entirely unchanged instead
of moving the position to 0. -/
theorem C5_seekTo_spec (p : Player) (t : ℚ) :
    (∀ d : ℚ, p.audio.duration = some d → d ≠ 0 →
      (seekTo t p).1.audio.currentTime = max 0 (min t d) ∧
      0 ≤ (seekTo t p).1.audio.currentTime ∧
      (0 ≤ d → (seekTo t p).1.audio.currentTime ≤ d)) ∧
    (p.audio.duration = none ∨ p.audio.duration = some 0 →
      (seekTo t p).1 = p ∧ (seekTo t p).2 = []) := by
  constructor
  · intro d hd hdz
    have hstep : (seekTo t p).1.audio.currentTime = max 0 (min t d) := by
      unfold seekTo
      rw [hd]
      dsimp only
      rw [if_neg hdz]
      rfl
    refine ⟨hstep, ?_, ?_⟩
    · rw [hstep]
      exact le_max_left _ _
    · intro hd0
      rw [hstep]
      exact max_le hd0 (min_le_right _ _)
  · intro hfalsy
    unfold seekTo
    rcases hfalsy with hd | hd <;> rw [hd]
    · exact ⟨rfl, rfl⟩
    · simp

/-- Claim C5 witness data: a player with a known 300-second duration. -/
def c5KnownPlayer : Player :=
  { audio :=
      { src := some ("https://archive.org/t1.mp3".toList), currentTime := 0,
        duration := some 300, paused := true, volume := 1 },
    playlist := [], currentIndex := 0, state := .paused }

/-- Claim C5 witness: seeking to 500 with duration 300 clamps to 300. -/
theorem C5_witness :
    c5KnownPlayer.audio.duration = some 300 ∧ (300 : ℚ) ≠ 0 ∧
    (seekTo 500 c5KnownPlayer).1.audio.currentTime = max 0 (min 500 300) ∧
    0 ≤ (seekTo 500 c5KnownPlayer).1.audio.currentTime ∧
    ((0 : ℚ) ≤ 300 → (seekTo 500 c5KnownPlayer).1.audio.currentTime ≤ 300) := by
  have h := (C5_seekTo_spec c5KnownPlayer 500).1 300 rfl (by norm_num)
  exact ⟨rfl, by norm_num, h.1, h.2.1, h.2.2⟩

/-! ## Claim C7 -/

/-- Claim C7 counterexample data: a track and a player currently playing
it. -/
def c7Track : AudioTrack :=
  { url := ("https://archive.org/download/test/track1.mp3".toList),
    filename := ("track1.mp3".toList),
    title := ("China Cat Sunflower".toList), duration := 300,
    format := ("VBR MP3".toList), size := 5000000, index := 0 }

/-- Claim C7 counterexample data: a player in the `playing` state. -/
def c7Player : Player :=
  { audio :=
      { src := some c7Track.url, currentTime := 10, duration := some 300,
        paused := false, volume := 1 },
    playlist := [c7Track], currentIndex := 0, state := .playing }

/-- Claim C7 counterexample: `loadPlaylist([])` on a playing player
leaves the state `playing` — it does not transition the engine to
`idle`.  (`loadCurrentTrack` finds no track, fires `onTrackChange(null)`
and never calls `setState`.) -/
theorem C7_counterexample :
    c7Player.state = .playing ∧
    (loadPlaylist [] 0 c7Player).1.state = .playing ∧
    PlayerState.playing ≠ PlayerState.idle := by
  refine ⟨rfl, ?_, by decide⟩
  rfl

/-- Claim C7 (amended): `loadPlaylist(tracks, startIndex)` with a
non-empty list stores the playlist, sets the current index to
`startIndex` clamped into `[0, len-1]`, and enters `loading` (via the
`loadstart` event of `audio.load()`); with an empty list it stores the
empty playlist, resets the index to 0, emits a `null` track change, and
leaves the engine state unchanged — there is no transition to `idle`. -/
theorem C7_loadPlaylist_spec (p : Player) (tracks : List AudioTrack)
    (i : ℤ) :
    (tracks ≠ [] →
      (loadPlaylist tracks i p).1.playlist = tracks ∧
      ((loadPlaylist tracks i p).1.currentIndex : ℤ) =
        max 0 (min i ((tracks.length : ℤ) - 1)) ∧
      (loadPlaylist tracks i p).1.currentIndex < tracks.length ∧
      (loadPlaylist tracks i p).1.state = .loading) ∧
    (tracks = [] →
      (loadPlaylist tracks i p).1.state = p.state ∧
      (loadPlaylist tracks i p).1.playlist = [] ∧
      (loadPlaylist tracks i p).1.currentIndex = 0 ∧
      (loadPlaylist tracks i p).2 = [PlayerEvent.trackChange none]) := by
  constructor
  · intro hne
    have hlen : 1 ≤ tracks.length := by
      cases tracks with
      | nil => exact absurd rfl hne
      | cons a l => simp
    unfold loadPlaylist
    set idx : ℕ := (max 0 (min i ((tracks.length : ℤ) - 1))).toNat with hidx
    have hidxlt : idx < tracks.length := by omega
    have hsome :
        tracks[idx]? = some (tracks.get ⟨idx, hidxlt⟩) := by
      rw [List.getElem?_eq_getElem hidxlt]
      rfl
    have h := loadCurrentTrack_some
      (p := { p with playlist := tracks, currentIndex := idx }) (by exact hsome)
    refine ⟨h.2.2.1, ?_, ?_, h.1⟩
    · rw [show (loadCurrentTrack
          { p with playlist := tracks, currentIndex := idx }).1.currentIndex =
          idx from h.2.2.2.1]
      omega
    · rw [show (loadCurrentTrack
          { p with playlist := tracks, currentIndex := idx }).1.currentIndex =
          idx from h.2.2.2.1]
      exact hidxlt
  · intro he
    subst he
    refine ⟨rfl, rfl, ?_, rfl⟩
    show (max 0 (min i ((([] : List AudioTrack).length : ℤ) - 1))).toNat = 0
    simp only [List.length_nil, Nat.cast_zero]
    omega

/-- Claim C7 witness: loading a one-track playlist with an out-of-range
start index 99 clamps the index to 0 and enters `loading`; loading the
empty playlist while playing leaves the state `playing`. -/
theorem C7_witness :
    ((loadPlaylist [c7Track] 99 c7Player).1.currentIndex : ℤ) =
      max 0 (min 99 ((([c7Track] : List AudioTrack).length : ℤ) - 1)) ∧
    (loadPlaylist [c7Track] 99 c7Player).1.state = .loading ∧
    (loadPlaylist [] 5 c7Player).1.state = c7Player.state ∧
    (loadPlaylist [] 5 c7Player).2 = [PlayerEvent.trackChange none] := by
  have h1 := (C7_loadPlaylist_spec c7Player [c7Track] 99).1 (by simp)
  have h2 := (C7_loadPlaylist_spec c7Player [] 5).2 rfl
  exact ⟨h1.2.1, h1.2.2.2, h2.1, h2.2.2.2⟩

/-! ## Claim C6 -/

/-- Claim C6: with a loaded (non-empty) playlist, `next()` at the last
index pauses the audio and transitions the engine to `idle` without
loading any track (no track-change notification is emitted; the current
index, playlist and source are untouched); at any earlier index it
advances the current index by one, loads that track (source assigned,
track change emitted, engine in `loading` from the load), and auto-plays
it — the engine enters `playing` when the issued `play()` succeeds. -/
theorem C6_next_spec (p : Player) (hne : p.playlist ≠ []) :
    (p.currentIndex = p.playlist.length - 1 →
      (next p).1.state = .idle ∧
      (next p).1.audio.paused = true ∧
      (next p).1.currentIndex = p.currentIndex ∧
      (next p).1.playlist = p.playlist ∧
      (next p).1.audio.src = p.audio.src ∧
      ∀ tc, PlayerEvent.trackChange tc ∉ (next p).2) ∧
    (p.currentIndex < p.playlist.length - 1 →
      (next p).1.currentIndex = p.currentIndex + 1 ∧
      (next p).1.state = .loading ∧
      (∃ t, p.playlist[p.currentIndex + 1]? = some t ∧
        (next p).1.audio.src = some t.url ∧
        PlayerEvent.trackChange (some t) ∈ (next p).2) ∧
      (elemPlayOk (next p).1).1.state = .playing) := by
  constructor
  · intro hlast
    have hlen : 1 ≤ p.playlist.length := by
      cases hpl : p.playlist with
      | nil => exact absurd hpl hne
      | cons a l => simp [hpl]
    have hcond : ¬(p.currentIndex < p.playlist.length - 1) := by omega
    have hnext : next p = opSeq elemPause (setState .idle) p := by
      unfold next
      rw [if_neg hcond]
    obtain ⟨hp1, hp2, hp3, hp4, hp5⟩ := elemPause_spec p
    obtain ⟨ha, hpl, hi⟩ := setState_audio .idle (elemPause p).1
    have hfst : (opSeq elemPause (setState .idle) p).1 =
        (setState .idle (elemPause p).1).1 := rfl
    have hsnd : (opSeq elemPause (setState .idle) p).2 =
        (elemPause p).2 ++ (setState .idle (elemPause p).1).2 := rfl
    rw [hnext]
    refine ⟨?_, ?_, ?_, ?_, ?_, ?_⟩
    · rw [hfst]
      exact setState_fst_state _ _
    · rw [hfst, ha]
      exact hp1
    · rw [hfst, hi]
      exact hp4
    · rw [hfst, hpl]
      exact hp3
    · rw [hfst, ha]
      exact hp2
    · intro tc hmem
      rw [hsnd] at hmem
      rcases List.mem_append.mp hmem with hm | hm
      · rcases hp5 with he | he <;> rw [he] at hm <;> simp at hm
      · rcases setState_events .idle (elemPause p).1 with he | he <;>
          rw [he] at hm <;> simp at hm
  · intro hmid
    have hlt : p.currentIndex + 1 < p.playlist.length := by omega
    have hnext : next p =
        loadCurrentTrack { p with currentIndex := p.currentIndex + 1 } := by
      unfold next
      rw [if_pos hmid]
    have hsome : p.playlist[p.currentIndex + 1]? =
        some (p.playlist.get ⟨p.currentIndex + 1, hlt⟩) := by
      rw [List.getElem?_eq_getElem hlt]
      rfl
    have h := loadCurrentTrack_some
      (p := { p with currentIndex := p.currentIndex + 1 }) (by exact hsome)
    rw [hnext]
    exact ⟨h.2.2.2.1, h.1, ⟨_, hsome, h.2.1, h.2.2.2.2⟩, elemPlayOk_state _⟩

/-- Claim C6 witness data: the second track of a two-track playlist. -/
def c6TrackB : AudioTrack :=
  { url := ("https://archive.org/download/test/track2.mp3".toList),
    filename := ("track2.mp3".toList),
    title := ("I Know You Rider".toList), duration := 360,
    format := ("VBR MP3".toList), size := 6000000, index := 1 }

/-- Claim C6 witness data: a player playing the last of two tracks. -/
def c6PlayerLast : Player :=
  { audio :=
      { src := some c6TrackB.url, currentTime := 350, duration := some 360,
        paused := false, volume := 1 },
    playlist := [c7Track, c6TrackB], currentIndex := 1, state := .playing }

/-- Claim C6 witness data: a player paused on the first of two tracks. -/
def c6PlayerMid : Player :=
  { audio :=
      { src := some c7Track.url, currentTime := 0, duration := some 300,
        paused := true, volume := 1 },
    playlist := [c7Track, c6TrackB], currentIndex := 0, state := .paused }

/-- Claim C6 witness: the theorem applied at a concrete player on the
last index (pause and idle) and at one on an earlier index (advance,
load, and enter playing on play success). -/
theorem C6_witness :
    (next c6PlayerLast).1.state = .idle ∧
    (next c6PlayerLast).1.audio.paused = true ∧
    (next c6PlayerLast).1.currentIndex = c6PlayerLast.currentIndex ∧
    (next c6PlayerMid).1.currentIndex = c6PlayerMid.currentIndex + 1 ∧
    (next c6PlayerMid).1.state = .loading ∧
    (elemPlayOk (next c6PlayerMid).1).1.state = .playing := by
  have hl := (C6_next_spec c6PlayerLast (by decide)).1 (by decide)
  have hm := (C6_next_spec c6PlayerMid (by decide)).2 (by decide)
  exact ⟨hl.1, hl.2.1, hl.2.2.1, hm.1, hm.2.1, hm.2.2.2⟩

/-! ## Claim C10: state-notification discipline

Every mutation of `Player.state` goes through `setState`, which notifies
only on an actual change.  `StepOk f` says that the `onStateChange`
notifications emitted by one operation `f` form a chain of pairwise
distinct consecutive states anchored at the pre-state, and that the last
notified state is the post-state.  All operations satisfy it, so whole
runs do. -/

def StepOk (f : Player → PM) : Prop :=
  ∀ p : Player,
    List.Chain' (fun a b => a ≠ b) (p.state :: stateEvs (f p).2) ∧
    endStateOf p.state (stateEvs (f p).2) = (f p).1.state

theorem endStateOf_append (s₀ : PlayerState) (l₁ l₂ : List PlayerState) :
    endStateOf s₀ (l₁ ++ l₂) = endStateOf (endStateOf s₀ l₁) l₂ := by
  induction l₁ generalizing s₀ with
  | nil => rfl
  | cons a l ih => exact ih a

theorem getLast?_cons_endStateOf (s₀ : PlayerState) (l : List PlayerState) :
    (s₀ :: l).getLast? = some (endStateOf s₀ l) := by
  induction l generalizing s₀ with
  | nil => rfl
  | cons a l ih => rw [List.getLast?_cons_cons]; exact ih a

theorem stateEvs_append (l₁ l₂ : List PlayerEvent) :
    stateEvs (l₁ ++ l₂) = stateEvs l₁ ++ stateEvs l₂ := by
  simp [stateEvs, List.filterMap_append]

theorem stepOk_skip : StepOk (fun p => (p, [])) := by
  intro p
  exact ⟨List.chain'_singleton _, rfl⟩

theorem stepOk_opPure (u : Player → Player)
    (hu : ∀ p, (u p).state = p.state) : StepOk (opPure u) := by
  intro p
  exact ⟨List.chain'_singleton _, (hu p).symm⟩

theorem stepOk_opEmit (e : PlayerEvent) (he : stateEvs [e] = []) :
    StepOk (opEmit e) := by
  intro p
  constructor
  · show List.Chain' _ (p.state :: stateEvs [e])
    rw [he]
    exact List.chain'_singleton _
  · show endStateOf p.state (stateEvs [e]) = p.state
    rw [he]
    rfl

theorem stepOk_setState (s : PlayerState) : StepOk (setState s) := by
  intro p
  unfold setState
  split_ifs with h
  · exact ⟨List.chain'_singleton _, rfl⟩
  · constructor
    · show List.Chain' _ [p.state, s]
      exact List.chain'_cons.mpr ⟨h, List.chain'_singleton _⟩
    · rfl

theorem stepOk_opSeq {f g : Player → PM} (hf : StepOk f) (hg : StepOk g) :
    StepOk (opSeq f g) := by
  intro p
  obtain ⟨hc1, he1⟩ := hf p
  obtain ⟨hc2, he2⟩ := hg (f p).1
  have hsnd : (opSeq f g p).2 = (f p).2 ++ (g (f p).1).2 := rfl
  have hfst : (opSeq f g p).1 = (g (f p).1).1 := rfl
  have hse : stateEvs ((f p).2 ++ (g (f p).1).2) =
      stateEvs (f p).2 ++ stateEvs (g (f p).1).2 := stateEvs_append _ _
  constructor
  · rw [hsnd, hse, ← List.cons_append, List.chain'_append]
    refine ⟨hc1, hc2.tail, ?_⟩
    intro x hx y hy
    rw [getLast?_cons_endStateOf, Option.mem_def, Option.some.injEq] at hx
    have hx' : x = (f p).1.state := by rw [← hx, he1]
    subst hx'
    exact (List.chain'_cons'.mp hc2).1 y hy
  · rw [hsnd, hfst, hse, endStateOf_append, he1, he2]

theorem stepOk_branch {c : Player → Prop} [DecidablePred c]
    {f g : Player → PM} (hf : StepOk f) (hg : StepOk g) :
    StepOk (fun p => if c p then f p else g p) := by
  intro p
  by_cases h : c p
  · have heq : (fun p => if c p then f p else g p) p = f p := if_pos h
    rw [heq]
    exact hf p
  · have heq : (fun p => if c p then f p else g p) p = g p := if_neg h
    rw [heq]
    exact hg p

theorem stepOk_precomp (u : Player → Player)
    (hu : ∀ p, (u p).state = p.state) {f : Player → PM} (hf : StepOk f) :
    StepOk (fun p => f (u p)) := by
  intro p
  obtain ⟨hc, he⟩ := hf (u p)
  rw [hu p] at hc he
  exact ⟨hc, he⟩

theorem stepOk_handleLoadstart : StepOk handleLoadstart :=
  stepOk_setState _

theorem stepOk_handleCanplay : StepOk handleCanplay :=
  stepOk_branch (stepOk_setState _) stepOk_skip

theorem stepOk_handlePauseEvt : StepOk handlePauseEvt :=
  stepOk_branch (stepOk_setState _) stepOk_skip

theorem stepOk_handleError (msg : List Char) : StepOk (handleError msg) :=
  stepOk_opSeq (stepOk_setState _) (stepOk_opEmit (.errorNote msg) rfl)

theorem stepOk_elemLoad : StepOk elemLoad :=
  stepOk_opSeq (stepOk_opPure _ fun _ => rfl) stepOk_handleLoadstart

theorem stepOk_elemPause : StepOk elemPause :=
  stepOk_branch stepOk_skip
    (stepOk_opSeq (stepOk_opPure _ fun _ => rfl) stepOk_handlePauseEvt)

theorem stepOk_elemPlayOk : StepOk elemPlayOk :=
  stepOk_opSeq (stepOk_opPure _ fun _ => rfl) (stepOk_setState _)

theorem stepOk_loadCurrentTrack : StepOk loadCurrentTrack := by
  intro p
  cases h : p.playlist[p.currentIndex]? with
  | none =>
    have heq : loadCurrentTrack p = opEmit (.trackChange none) p := by
      unfold loadCurrentTrack
      rw [h]
    rw [heq]
    exact stepOk_opEmit (.trackChange none) rfl p
  | some t =>
    have heq : loadCurrentTrack p =
        opSeq
          (opPure fun q =>
            { q with audio := { q.audio with src := some t.url } })
          (opSeq elemLoad (opEmit (.trackChange (some t)))) p := by
      unfold loadCurrentTrack
      rw [h]
    rw [heq]
    exact stepOk_opSeq
      (stepOk_opPure
        (fun q => { q with audio := { q.audio with src := some t.url } })
        (fun _ => rfl))
      (stepOk_opSeq stepOk_elemLoad
        (stepOk_opEmit (.trackChange (some t)) rfl)) p

theorem stepOk_loadPlaylist (tracks : List AudioTrack) (i : ℤ) :
    StepOk (loadPlaylist tracks i) := by
  intro p
  exact stepOk_loadCurrentTrack
    { p with
      playlist := tracks,
      currentIndex := (max 0 (min i ((tracks.length : ℤ) - 1))).toNat }

theorem stepOk_next : StepOk next := by
  intro p
  unfold next
  split_ifs with h
  · exact stepOk_loadCurrentTrack { p with currentIndex := p.currentIndex + 1 }
  · exact stepOk_opSeq stepOk_elemPause (stepOk_setState _) p

theorem stepOk_previous : StepOk previous := by
  intro p
  unfold previous
  split_ifs with h1 h2
  · exact stepOk_opPure _ (fun _ => rfl) p
  · exact stepOk_loadCurrentTrack { p with currentIndex := p.currentIndex - 1 }
  · exact stepOk_opPure _ (fun _ => rfl) p

theorem stepOk_seekTo (t : ℚ) : StepOk (seekTo t) := by
  intro p
  cases h : p.audio.duration with
  | none =>
    have heq : seekTo t p = (p, []) := by
      unfold seekTo
      rw [h]
    rw [heq]
    exact ⟨List.chain'_singleton _, rfl⟩
  | some d =>
    have heq : seekTo t p =
        if d = 0 then (p, [])
        else
          opPure (fun q =>
            { q with audio :=
                { q.audio with currentTime := max 0 (min t d) } }) p := by
      unfold seekTo
      rw [h]
    rw [heq]
    split_ifs
    · exact ⟨List.chain'_singleton _, rfl⟩
    · exact stepOk_opPure _ (fun _ => rfl) p

theorem stepOk_setVolume (v : ℚ) : StepOk (setVolume v) :=
  stepOk_opPure _ fun _ => rfl

theorem stepOk_handleTimeupdate : StepOk handleTimeupdate := by
  intro p
  exact ⟨List.chain'_singleton _, rfl⟩

theorem stepOk_destroy : StepOk destroy :=
  stepOk_opSeq stepOk_elemPause
    (stepOk_opSeq (stepOk_opPure _ fun _ => rfl) (stepOk_setState _))

theorem stepOk_step (c : Cmd) : StepOk (fun p => step p c) := by
  cases c with
  | load tracks startIndex => exact stepOk_loadPlaylist tracks startIndex
  | playOk => exact stepOk_elemPlayOk
  | playErr message => exact stepOk_opEmit (.errorNote message) rfl
  | pauseCmd => exact stepOk_elemPause
  | nextCmd => exact stepOk_next
  | prevCmd => exact stepOk_previous
  | seekCmd time => exact stepOk_seekTo time
  | volumeCmd volume => exact stepOk_setVolume volume
  | canplayEvt => exact stepOk_handleCanplay
  | endedEvt => exact stepOk_next
  | timeupdateEvt => exact stepOk_handleTimeupdate
  | errorEvt message => exact stepOk_handleError message
  | destroyCmd => exact stepOk_destroy

theorem stepOk_runOp (cmds : List Cmd) : StepOk (runOp cmds) := by
  induction cmds with
  | nil => exact stepOk_skip
  | cons c cs ih => exact stepOk_opSeq (stepOk_step c) ih

/-- Claim C10: over every sequence of commands and audio-element events
delivered to a freshly constructed player, the emitted `onStateChange`
notifications never repeat the previous notified state (adjacent
notifications always differ), and a `setState` to the state the engine is
already in changes nothing and emits nothing. -/
theorem C10_stateChange_no_dup (cmds : List Cmd) :
    List.Chain' (fun a b => a ≠ b)
      (stateEvs (runOp cmds initPlayer).2) ∧
    ∀ p : Player, setState p.state p = (p, []) := by
  constructor
  · exact ((stepOk_runOp cmds) initPlayer).1.tail
  · intro p
    unfold setState
    rw [if_pos rfl]

end DeadStream
